import Mathlib

/-!
Shallow embedding of the three pipeline scripts of the repository
(`download_sample_video.py` — the Fetcher, `extract_frames.py` — the Framer,
`run_molmo2_frames.py` — the Summarizer) and proofs about their contracts.

The scripts are thin sequential wrappers around the file system, an external
`ffmpeg` process and remote services.  The embedding models the file system
state each script reads and writes (lists of file names, archive member
names, byte lists) and turns each script's `main` into a pure function from
that state to an outcome record.  External effects (the `hf_hub_download`
call, the `ffmpeg` process, the model inference) are treated as oracles: the
downloaded bytes, the success flag and the number of frames the tool writes
are parameters of the run.
-/

/-! ### Python string comparison and slicing -/

/-- Python's `<` on strings as used by `sorted(...)`: lexicographic
comparison of the character sequences by code point. -/
def charsLt : List Char → List Char → Bool
  | [], [] => false
  | [], _ :: _ => true
  | _ :: _, [] => false
  | a :: as, b :: bs => if a < b then true else if b < a then false else charsLt as bs

/-- The `≤` order `sorted(...)` sorts file names by. -/
def strLe (a b : String) : Prop := charsLt b.data a.data = false

instance : DecidableRel strLe :=
  fun a b => inferInstanceAs (Decidable (charsLt b.data a.data = false))

/-- Python's `sorted(...)` on a list of file names. -/
def sortStr (l : List String) : List String := List.insertionSort strLe l

/-- Python slice `l[:n]` for an `int` bound `n`: a nonnegative bound keeps the
first `n` elements, a negative bound drops the last `|n|` elements. -/
def pySliceTo {α : Type} (l : List α) (n : Int) : List α :=
  if 0 ≤ n then l.take n.toNat else l.take (l.length - (-n).toNat)

/-! ### Summarizer (`run_molmo2_frames.py`) -/

/-- The module-level `SAFETY_PROMPT` constant, verbatim. -/
def SAFETY_PROMPT : String :=
  "You are a safety-aware video summarizer.\nDo NOT output any personal details, license plates, exact locations, names, timestamps, or any numbers seen on screen.\nDo NOT guess demographics or identities.\nDescribe only abstract events in sequence. If unsure, say \"uncertain\".\n\nTask: Summarize what happens in this traffic incident video in 5-8 bullet points.\n"

/-- One element of the `content` list of the chat message. -/
inductive ContentItem
  | text (s : String)
  | image (file : String)
deriving DecidableEq

/-- One chat message (`role` plus `content`). -/
structure Message where
  role : String
  content : List ContentItem
deriving DecidableEq

inductive SummErr
  | noFrames
deriving DecidableEq

/-- Observable outcome of one Summarizer run: which frame files were opened
as images (in order), the constructed `messages`, and the error if any. -/
structure SummOutcome where
  loaded : List String
  messages : List Message
  err : Option SummErr
deriving DecidableEq

/-- `main` of `run_molmo2_frames.py` up to the model call.  `dirJpgs` is the
list of `*.jpg` file names in the `--frames` directory, `maxFrames` the
`--max_frames` argument.  The script computes
`frames = sorted(frame_dir.glob("*.jpg"))[: args.max_frames]`, raises if the
result is empty, opens every remaining file as an image, and builds a single
user message whose content is the safety prompt followed by the images. -/
def summarizerRun (dirJpgs : List String) (maxFrames : Int) : SummOutcome :=
  let frames := pySliceTo (sortStr dirJpgs) maxFrames
  if frames.isEmpty then ⟨[], [], some SummErr.noFrames⟩
  else
    ⟨frames,
     [⟨("user"), ContentItem.text SAFETY_PROMPT :: frames.map ContentItem.image⟩],
     none⟩

/-! ### Framer (`extract_frames.py`) -/

/-- `%04d` formatting, as in the ffmpeg output pattern `out_dir / "%04d.jpg"`:
decimal, zero padded on the left to at least four digits. -/
def fmt4 (i : Nat) : String :=
  if i < 10000 then
    String.mk [Nat.digitChar (i / 1000), Nat.digitChar (i / 100 % 10),
               Nat.digitChar (i / 10 % 10), Nat.digitChar (i % 10)]
  else Nat.repr i

/-- File name of the `i`-th extracted frame (ffmpeg numbers frames from 1). -/
def imgName (i : Nat) : String := fmt4 i ++ (".jpg")

/-- The frame files ffmpeg writes when it produces `produced` frames, in
extraction (temporal) order: `0001.jpg`, `0002.jpg`, ... -/
def tnames (produced : Nat) : List String :=
  (List.range produced).map (fun k => imgName (k + 1))

/-- The `*.jpg` files present in the output directory after ffmpeg exits:
the pre-existing files (any with a clashing name is overwritten in place,
which leaves one file of that name) together with the produced frames. -/
def jpgsAfter (initJpgs : List String) (produced : Nat) : List String :=
  initJpgs.filter (fun s => !((tnames produced).contains s)) ++ tnames produced

inductive FramerErr
  | videoNotFound
  | ffmpegFailed
  | noFrames
deriving DecidableEq

/-- Observable outcome of one Framer run. -/
structure FramerOutcome where
  dirCreated : Bool
  ffmpegSpawned : Bool
  finalJpgs : List String
  err : Option FramerErr
deriving DecidableEq

/-- `main` of `extract_frames.py`.  `videoExists` is whether the `--video`
path exists, `initJpgs` the `*.jpg` files already in the `--out` directory,
`ffmpegOk` whether the spawned process exits with status 0, `produced` how
many frames it writes, `maxFrames` the `--max_frames` argument.  The script
checks the video path first (before `mkdir` and before spawning anything),
then runs ffmpeg, then computes `frames = sorted(out_dir.glob("*.jpg"))`,
raises if that list is empty, and unlinks every file of `frames[max_frames:]`
— which leaves exactly the files of `frames[:max_frames]` on disk.  (A
failing ffmpeg raises `CalledProcessError`; partial output of a failed run is
not modelled, no claim depends on that branch.) -/
def framerRun (videoExists : Bool) (initJpgs : List String) (ffmpegOk : Bool)
    (produced : Nat) (maxFrames : Int) : FramerOutcome :=
  if videoExists then
    if ffmpegOk then
      let after := jpgsAfter initJpgs produced
      let frames := sortStr after
      if frames.isEmpty then ⟨true, true, after, some FramerErr.noFrames⟩
      else ⟨true, true, pySliceTo frames maxFrames, none⟩
    else ⟨true, true, initJpgs, some FramerErr.ffmpegFailed⟩
  else ⟨false, false, initJpgs, some FramerErr.videoNotFound⟩

/-! ### Fetcher (`download_sample_video.py`) -/

/-- ASCII lowering of one character, the effect of Python's `str.lower` on
the ASCII file names involved here. -/
def lowerChar (c : Char) : Char :=
  if 'A' ≤ c ∧ c ≤ 'Z' then Char.ofNat (c.toNat + 32) else c

/-- `str.lower` on the character sequence of a name. -/
def lowerChars (l : List Char) : List Char := l.map lowerChar

/-- Whether the first list is a prefix of the second. -/
def isPrefixChars : List Char → List Char → Bool
  | [], _ => true
  | _ :: _, [] => false
  | a :: as, b :: bs => a == b && isPrefixChars as bs

/-- Python's substring test `pat in l`. -/
def containsSub (pat : List Char) : List Char → Bool
  | [] => isPrefixChars pat []
  | b :: bs => isPrefixChars pat (b :: bs) || containsSub pat bs

/-- Python's `l.endswith(pat)`. -/
def endsWithChars (pat l : List Char) : Bool := isPrefixChars pat.reverse l.reverse

/-- The member filter `m.name.lower().endswith(".mp4")`. -/
def isVideoName (n : String) : Bool := endsWithChars ((".mp4").data) (lowerChars n.data)

/-- The preference test on a member name `n`:
`"accident" in n or "crash" in n or "collision" in n` after lowering. -/
def isIncident (n : String) : Bool :=
  containsSub (("accident").data) (lowerChars n.data)
    || containsSub (("crash").data) (lowerChars n.data)
    || containsSub (("collision").data) (lowerChars n.data)

/-- Member selection of `download_sample_video.main`: filter the archive
listing down to the `.mp4` members, return `None` when there are none, else
the first member whose name matches an incident keyword (the `for` loop with
`break`), falling back to `members[0]`. -/
def selectMember (members : List String) : Option String :=
  match members.filter isVideoName with
  | [] => none
  | v :: vs => some (((v :: vs).find? isIncident).getD v)

/-- Archive bytes. -/
abbrev Bytes := List Nat

inductive FetchErr
  | noMatch
deriving DecidableEq

/-- Observable outcome of one Fetcher run: the bytes of the local archive
copy `videos/<archive-name>` after the run, whether this run wrote that copy,
the members extracted, whether `videos/sample.mp4` was written, and the error
if any. -/
structure FetcherOutcome where
  localTar : Option Bytes
  wroteLocalTar : Bool
  extracted : List String
  sampleWritten : Bool
  err : Option FetchErr
deriving DecidableEq

/-- `main` of `download_sample_video.py`.  `localTar0` is the local archive
copy before the run (`None` when absent), `remote` the bytes
`hf_hub_download` delivers, `members` the archive listing in order.  The
script writes the local copy only when it is absent, then scans the listing;
with no `.mp4` member it raises before extracting anything, else it extracts
the selected member and writes `videos/sample.mp4`. -/
def fetcherRun (localTar0 : Option Bytes) (remote : Bytes) (members : List String) :
    FetcherOutcome :=
  let localTar := localTar0.getD remote
  let wrote := localTar0.isNone
  match selectMember members with
  | none => ⟨some localTar, wrote, [], false, some FetchErr.noMatch⟩
  | some t => ⟨some localTar, wrote, [t], true, none⟩

/-! ### Order theory of the string comparison -/

theorem charsLt_irrefl : ∀ l : List Char, charsLt l l = false
  | [] => rfl
  | a :: as => by simp [charsLt, lt_irrefl a, charsLt_irrefl as]

theorem charsLt_asymm : ∀ {l1 l2 : List Char}, charsLt l1 l2 = true → charsLt l2 l1 = false
  | [], [], h => by simp [charsLt] at h
  | [], _ :: _, _ => rfl
  | _ :: _, [], h => by simp [charsLt] at h
  | a :: as, b :: bs, h => by
    by_cases hab : a < b
    · simp [charsLt, hab, lt_asymm hab]
    · by_cases hba : b < a
      · simp [charsLt, hab, hba] at h
      · have htail : charsLt as bs = true := by simpa [charsLt, hab, hba] using h
        simp [charsLt, hab, hba, charsLt_asymm htail]

theorem charsLt_trans : ∀ {l1 l2 l3 : List Char},
    charsLt l1 l2 = true → charsLt l2 l3 = true → charsLt l1 l3 = true
  | [], _, _ :: _, _, _ => rfl
  | [], b :: bs, [], _, h2 => by simp [charsLt] at h2
  | [], [], l3, h1, _ => by simp [charsLt] at h1
  | _ :: _, [], _, h1, _ => by simp [charsLt] at h1
  | _ :: _, _ :: _, [], _, h2 => by simp [charsLt] at h2
  | a :: as, b :: bs, c :: cs, h1, h2 => by
    by_cases hab : a < b
    · by_cases hbc : b < c
      · simp [charsLt, lt_trans hab hbc]
      · by_cases hcb : c < b
        · simp [charsLt, hbc, hcb] at h2
        · have hbceq : b = c := le_antisymm (le_of_not_lt hcb) (le_of_not_lt hbc)
          subst hbceq
          simp [charsLt, hab]
    · by_cases hba : b < a
      · simp [charsLt, hab, hba] at h1
      · have habeq : a = b := le_antisymm (le_of_not_lt hba) (le_of_not_lt hab)
        subst habeq
        by_cases hac : a < c
        · simp [charsLt, hac]
        · by_cases hca : c < a
          · simp [charsLt, hac, hca] at h2
          · have h1' : charsLt as bs = true := by simpa [charsLt, hab] using h1
            have h2' : charsLt bs cs = true := by simpa [charsLt, hac, hca] using h2
            simp [charsLt, hac, hca, charsLt_trans h1' h2']

theorem charsLt_total_eq : ∀ {l1 l2 : List Char},
    charsLt l1 l2 = false → charsLt l2 l1 = false → l1 = l2
  | [], [], _, _ => rfl
  | [], _ :: _, h1, _ => by simp [charsLt] at h1
  | _ :: _, [], _, h2 => by simp [charsLt] at h2
  | a :: as, b :: bs, h1, h2 => by
    by_cases hab : a < b
    · simp [charsLt, hab] at h1
    · by_cases hba : b < a
      · simp [charsLt, hba] at h2
      · have habeq : a = b := le_antisymm (le_of_not_lt hba) (le_of_not_lt hab)
        subst habeq
        have h1' : charsLt as bs = false := by simpa [charsLt, hab] using h1
        have h2' : charsLt bs as = false := by simpa [charsLt, hab] using h2
        rw [charsLt_total_eq h1' h2']

instance : IsTotal String strLe := by
  constructor
  intro a b
  unfold strLe
  cases h : charsLt b.data a.data with
  | false => exact Or.inl rfl
  | true => exact Or.inr (charsLt_asymm h)

instance : IsTrans String strLe := by
  constructor
  intro a b c h1 h2
  unfold strLe at *
  cases hca : charsLt c.data a.data with
  | false => rfl
  | true =>
    exfalso
    cases hbc : charsLt b.data c.data with
    | true => exact absurd (charsLt_trans hbc hca) (by simp [h1])
    | false =>
      have hbceq : b.data = c.data := charsLt_total_eq hbc h2
      rw [← hbceq] at hca
      exact absurd hca (by simp [h1])

/-! ### Sorting and slicing lemmas -/

theorem pySliceTo_of_nonneg {α : Type} (l : List α) {n : Int} (h : 0 ≤ n) :
    pySliceTo l n = l.take n.toNat := by
  simp [pySliceTo, h]

theorem sortStr_length (l : List String) : (sortStr l).length = l.length :=
  List.length_insertionSort strLe l

theorem sortStr_eq_nil_iff (l : List String) : sortStr l = [] ↔ l = [] := by
  constructor
  · intro h
    have hlen := sortStr_length l
    rw [h] at hlen
    exact List.eq_nil_of_length_eq_zero hlen.symm
  · rintro rfl
    rfl

/-! ### The frame names written by ffmpeg -/

theorem digitChar_lt {x y : Nat} (hxy : x < y) (hy : y ≤ 9) :
    Nat.digitChar x < Nat.digitChar y := by
  have hx : x ≤ 9 := by omega
  revert hxy
  interval_cases x <;> interval_cases y <;> decide

theorem fmt4_data {i : Nat} (h : i < 10000) :
    (fmt4 i).data
      = Nat.digitChar (i / 1000) :: Nat.digitChar (i / 100 % 10)
        :: Nat.digitChar (i / 10 % 10) :: Nat.digitChar (i % 10) :: [] := by
  simp [fmt4, h]

theorem imgName_data {i : Nat} (h : i < 10000) :
    (imgName i).data
      = Nat.digitChar (i / 1000) :: Nat.digitChar (i / 100 % 10)
        :: Nat.digitChar (i / 10 % 10) :: Nat.digitChar (i % 10) :: ((".jpg").data) := by
  rw [imgName, String.data_append, fmt4_data h]
  rfl

theorem charsLt_imgName {a b : Nat} (hab : a < b) (hb : b ≤ 9999) :
    charsLt (imgName a).data (imgName b).data = true := by
  have ha4 : a < 10000 := by omega
  have hb4 : b < 10000 := by omega
  rw [imgName_data ha4, imgName_data hb4]
  rcases Nat.lt_trichotomy (a / 1000) (b / 1000) with h3 | h3 | h3
  · simp [charsLt, digitChar_lt h3 (by omega)]
  · rw [h3]
    rcases Nat.lt_trichotomy (a / 100 % 10) (b / 100 % 10) with h2 | h2 | h2
    · simp [charsLt, lt_irrefl, digitChar_lt h2 (by omega)]
    · rw [h2]
      rcases Nat.lt_trichotomy (a / 10 % 10) (b / 10 % 10) with h1 | h1 | h1
      · simp [charsLt, lt_irrefl, digitChar_lt h1 (by omega)]
      · rw [h1]
        have h0 : a % 10 < b % 10 := by omega
        simp [charsLt, lt_irrefl, digitChar_lt h0 (by omega)]
      · omega
    · omega
  · omega

theorem tnames_pairwise_lt {produced : Nat} (hp : produced ≤ 9999) :
    (tnames produced).Pairwise (fun a b => charsLt a.data b.data = true) := by
  rw [tnames, List.pairwise_iff_getElem]
  intro i j hi hj hij
  simp only [List.length_map, List.length_range] at hi hj
  simp only [List.getElem_map, List.getElem_range]
  exact charsLt_imgName (by omega) (by omega)

theorem tnames_sorted {produced : Nat} (hp : produced ≤ 9999) :
    List.Sorted strLe (tnames produced) :=
  (tnames_pairwise_lt hp).imp (fun h => charsLt_asymm h)

theorem sortStr_tnames {produced : Nat} (hp : produced ≤ 9999) :
    sortStr (tnames produced) = tnames produced :=
  List.Sorted.insertionSort_eq (tnames_sorted hp)

theorem tnames_eq_nil_iff (produced : Nat) : tnames produced = [] ↔ produced = 0 := by
  simp [tnames]

theorem jpgsAfter_zero (initJpgs : List String) : jpgsAfter initJpgs 0 = initJpgs := by
  simp [jpgsAfter, tnames]

theorem jpgsAfter_nil (produced : Nat) : jpgsAfter [] produced = tnames produced := by
  simp [jpgsAfter]

theorem jpgsAfter_eq_nil_iff (initJpgs : List String) (produced : Nat) :
    jpgsAfter initJpgs produced = [] ↔ (initJpgs = [] ∧ produced = 0) := by
  constructor
  · intro h
    obtain ⟨h1, h2⟩ := List.append_eq_nil.mp h
    have hp : produced = 0 := (tnames_eq_nil_iff produced).mp h2
    subst hp
    rw [jpgsAfter_zero] at h
    exact ⟨h, rfl⟩
  · rintro ⟨rfl, rfl⟩
    rfl

/-! ### First-match structure of `filter` and `find?` -/

theorem find_filter_split {α : Type} {p q : α → Bool} {l : List α} {t : α}
    (h : (l.filter p).find? q = some t) :
    ∃ pre post, l = pre ++ t :: post ∧ p t = true ∧ q t = true
      ∧ ∀ m ∈ pre, ¬(p m = true ∧ q m = true) := by
  induction l with
  | nil => simp at h
  | cons a l ih =>
    by_cases hpa : p a = true
    · rw [List.filter_cons_of_pos hpa] at h
      by_cases hqa : q a = true
      · rw [List.find?_cons_of_pos _ hqa] at h
        obtain rfl : a = t := by simpa using h
        exact ⟨[], l, rfl, hpa, hqa, by simp⟩
      · rw [List.find?_cons_of_neg _ (by simp [hqa])] at h
        obtain ⟨pre, post, rfl, hpt, hqt, hpre⟩ := ih h
        refine ⟨a :: pre, post, rfl, hpt, hqt, ?_⟩
        intro m hm
        rcases List.mem_cons.mp hm with rfl | hm
        · exact fun hc => hqa hc.2
        · exact hpre m hm
    · rw [List.filter_cons_of_neg (by simp [hpa])] at h
      obtain ⟨pre, post, rfl, hpt, hqt, hpre⟩ := ih h
      refine ⟨a :: pre, post, rfl, hpt, hqt, ?_⟩
      intro m hm
      rcases List.mem_cons.mp hm with rfl | hm
      · exact fun hc => hpa hc.1
      · exact hpre m hm

theorem filter_head_split {α : Type} {p : α → Bool} {l : List α} {t : α} {vs : List α}
    (h : l.filter p = t :: vs) :
    ∃ pre post, l = pre ++ t :: post ∧ p t = true ∧ ∀ m ∈ pre, p m = false := by
  induction l with
  | nil => simp at h
  | cons a l ih =>
    by_cases hpa : p a = true
    · rw [List.filter_cons_of_pos hpa] at h
      obtain ⟨rfl, rfl⟩ : a = t ∧ l.filter p = vs := by simpa using h
      exact ⟨[], l, rfl, hpa, by simp⟩
    · rw [List.filter_cons_of_neg (by simp [hpa])] at h
      obtain ⟨pre, post, rfl, hpt, hpre⟩ := ih h
      refine ⟨a :: pre, post, rfl, hpt, ?_⟩
      intro m hm
      rcases List.mem_cons.mp hm with rfl | hm
      · simpa using hpa
      · exact hpre m hm

theorem find_filter_none {α : Type} {p q : α → Bool} {l : List α}
    (h : (l.filter p).find? q = none) :
    ∀ m ∈ l, p m = true → q m = false := by
  intro m hm hpm
  have hmem : m ∈ l.filter p := List.mem_filter.mpr ⟨hm, hpm⟩
  have := List.find?_eq_none.mp h m hmem
  simpa using this

/-! ### Behavior of the Fetcher run -/

theorem fetcherRun_localTar (localTar0 : Option Bytes) (remote : Bytes)
    (members : List String) :
    (fetcherRun localTar0 remote members).localTar = some (localTar0.getD remote)
      ∧ (fetcherRun localTar0 remote members).wroteLocalTar = localTar0.isNone := by
  unfold fetcherRun
  cases selectMember members <;> simp

theorem fetcherRun_noMatch (localTar0 : Option Bytes) (remote : Bytes)
    (members : List String) (h : ∀ m ∈ members, isVideoName m = false) :
    fetcherRun localTar0 remote members
      = ⟨some (localTar0.getD remote), localTar0.isNone, [], false, some FetchErr.noMatch⟩ := by
  have hf : members.filter isVideoName = [] := by
    rw [List.filter_eq_nil_iff]
    intro a ha
    simp [h a ha]
  have hsel : selectMember members = none := by
    unfold selectMember
    rw [hf]
  unfold fetcherRun
  rw [hsel]

theorem fetcherRun_some (localTar0 : Option Bytes) (remote : Bytes) (members : List String)
    {t : String} (h : selectMember members = some t) :
    fetcherRun localTar0 remote members
      = ⟨some (localTar0.getD remote), localTar0.isNone, [t], true, none⟩ := by
  unfold fetcherRun
  rw [h]

/-- C3: for every archive with zero members whose lowercased name ends in
".mp4", the Fetcher raises the fatal no-match error, extracts no member, and
does not write `videos/sample.mp4`. -/
theorem fetcher_no_match_aborts (localTar0 : Option Bytes) (remote : Bytes)
    (members : List String) (h : ∀ m ∈ members, isVideoName m = false) :
    (fetcherRun localTar0 remote members).err = some FetchErr.noMatch
      ∧ (fetcherRun localTar0 remote members).extracted = []
      ∧ (fetcherRun localTar0 remote members).sampleWritten = false := by
  rw [fetcherRun_noMatch localTar0 remote members h]
  exact ⟨rfl, rfl, rfl⟩

theorem fetcher_no_match_aborts_witness :
    (∀ m ∈ [("readme.txt")], isVideoName m = false)
      ∧ ((fetcherRun none ([7]) [("readme.txt")]).err = some FetchErr.noMatch
        ∧ (fetcherRun none ([7]) [("readme.txt")]).extracted = []
        ∧ (fetcherRun none ([7]) [("readme.txt")]).sampleWritten = false) :=
  ⟨by decide, fetcher_no_match_aborts none ([7]) [("readme.txt")] (by decide)⟩

/-- C10: the Fetcher writes the local archive copy (when absent) before
scanning the members, so a run that aborts with the no-match error still
leaves the newly written local copy on disk. -/
theorem fetcher_tar_written_despite_no_match (remote : Bytes) (members : List String)
    (h : ∀ m ∈ members, isVideoName m = false) :
    (fetcherRun none remote members).err = some FetchErr.noMatch
      ∧ (fetcherRun none remote members).localTar = some remote
      ∧ (fetcherRun none remote members).wroteLocalTar = true := by
  rw [fetcherRun_noMatch none remote members h]
  exact ⟨rfl, rfl, rfl⟩

theorem fetcher_tar_written_despite_no_match_witness :
    (∀ m ∈ [("a.txt")], isVideoName m = false)
      ∧ ((fetcherRun none ([7, 8]) [("a.txt")]).err = some FetchErr.noMatch
        ∧ (fetcherRun none ([7, 8]) [("a.txt")]).localTar = some ([7, 8])
        ∧ (fetcherRun none ([7, 8]) [("a.txt")]).wroteLocalTar = true) :=
  ⟨by decide, fetcher_tar_written_despite_no_match ([7, 8]) [("a.txt")] (by decide)⟩

/-- C6: a second Fetcher run over the same archive, starting with the local
archive copy the first run left, keeps that copy's bytes unchanged and does
not rewrite the file. -/
theorem fetcher_rerun_keeps_local_tar (remote : Bytes) (members : List String) :
    (fetcherRun (fetcherRun none remote members).localTar remote members).localTar
        = (fetcherRun none remote members).localTar
      ∧ (fetcherRun (fetcherRun none remote members).localTar remote members).wroteLocalTar
        = false := by
  have h1 := fetcherRun_localTar none remote members
  simp only [Option.getD_none, Option.isNone_none] at h1
  rw [h1.1]
  have h2 := fetcherRun_localTar (some remote) remote members
  simp only [Option.getD_some, Option.isNone_some] at h2
  exact ⟨h2.1, h2.2⟩

/-- C2: for every archive with at least one `.mp4` member, the Fetcher
extracts exactly one member and writes `videos/sample.mp4`; the extracted
member is the first `.mp4` member in listing order whose lowercased name
contains an incident keyword when such a member exists, and otherwise the
first `.mp4` member in listing order. -/
theorem fetcher_selects_preferred (localTar0 : Option Bytes) (remote : Bytes)
    (members : List String) (h : ∃ m ∈ members, isVideoName m = true) :
    ∃ t, (fetcherRun localTar0 remote members).extracted = [t]
      ∧ (fetcherRun localTar0 remote members).sampleWritten = true
      ∧ (fetcherRun localTar0 remote members).err = none
      ∧ ((∃ m ∈ members, isVideoName m = true ∧ isIncident m = true) →
          ∃ pre post, members = pre ++ t :: post ∧ isVideoName t = true ∧ isIncident t = true
            ∧ ∀ m ∈ pre, ¬(isVideoName m = true ∧ isIncident m = true))
      ∧ ((¬ ∃ m ∈ members, isVideoName m = true ∧ isIncident m = true) →
          ∃ pre post, members = pre ++ t :: post ∧ isVideoName t = true
            ∧ ∀ m ∈ pre, isVideoName m = false) := by
  obtain ⟨v, vs, hvvs⟩ : ∃ v vs, members.filter isVideoName = v :: vs := by
    cases hf : members.filter isVideoName with
    | nil =>
      obtain ⟨m, hm, hv⟩ := h
      have := List.filter_eq_nil_iff.mp hf m hm
      simp [hv] at this
    | cons v vs => exact ⟨v, vs, rfl⟩
  have hsel : selectMember members = some (((v :: vs).find? isIncident).getD v) := by
    unfold selectMember
    rw [hvvs]
  cases hfind : (v :: vs).find? isIncident with
  | some m =>
    rw [hfind] at hsel
    simp only [Option.getD_some] at hsel
    rw [fetcherRun_some localTar0 remote members hsel]
    have hff : (members.filter isVideoName).find? isIncident = some m := by
      rw [hvvs]
      exact hfind
    obtain ⟨pre, post, heq, hp, hq, hpre⟩ := find_filter_split hff
    refine ⟨m, rfl, rfl, rfl, fun _ => ⟨pre, post, heq, hp, hq, hpre⟩, fun hno => ?_⟩
    exfalso
    apply hno
    refine ⟨m, ?_, hp, hq⟩
    rw [heq]
    exact List.mem_append_right _ (List.mem_cons_self m post)
  | none =>
    rw [hfind] at hsel
    simp only [Option.getD_none] at hsel
    rw [fetcherRun_some localTar0 remote members hsel]
    have hff : (members.filter isVideoName).find? isIncident = none := by
      rw [hvvs]
      exact hfind
    obtain ⟨pre, post, heq, hpv, hpre⟩ := filter_head_split hvvs
    refine ⟨v, rfl, rfl, rfl, fun hsome => ?_, fun _ => ⟨pre, post, heq, hpv, hpre⟩⟩
    exfalso
    obtain ⟨m, hm, hvm, him⟩ := hsome
    have := find_filter_none hff m hm hvm
    rw [him] at this
    exact Bool.true_eq_false.mp this

theorem fetcher_selects_preferred_witness :
    (∃ m ∈ [("notes.txt"), ("clip1.mp4"), ("BIG_Crash.MP4")], isVideoName m = true)
      ∧ (∃ t,
        (fetcherRun none ([7]) [("notes.txt"), ("clip1.mp4"), ("BIG_Crash.MP4")]).extracted = [t]
        ∧ (fetcherRun none ([7]) [("notes.txt"), ("clip1.mp4"), ("BIG_Crash.MP4")]).sampleWritten
            = true
        ∧ (fetcherRun none ([7]) [("notes.txt"), ("clip1.mp4"), ("BIG_Crash.MP4")]).err = none
        ∧ ((∃ m ∈ [("notes.txt"), ("clip1.mp4"), ("BIG_Crash.MP4")],
              isVideoName m = true ∧ isIncident m = true) →
            ∃ pre post, [("notes.txt"), ("clip1.mp4"), ("BIG_Crash.MP4")] = pre ++ t :: post
              ∧ isVideoName t = true ∧ isIncident t = true
              ∧ ∀ m ∈ pre, ¬(isVideoName m = true ∧ isIncident m = true))
        ∧ ((¬ ∃ m ∈ [("notes.txt"), ("clip1.mp4"), ("BIG_Crash.MP4")],
              isVideoName m = true ∧ isIncident m = true) →
            ∃ pre post, [("notes.txt"), ("clip1.mp4"), ("BIG_Crash.MP4")] = pre ++ t :: post
              ∧ isVideoName t = true
              ∧ ∀ m ∈ pre, isVideoName m = false)) :=
  ⟨by decide,
   fetcher_selects_preferred none ([7]) [("notes.txt"), ("clip1.mp4"), ("BIG_Crash.MP4")]
     (by decide)⟩

/-! ### Behavior of the Summarizer run -/

theorem pySliceTo_nil {α : Type} (n : Int) : pySliceTo ([] : List α) n = [] := by
  unfold pySliceTo
  split <;> simp

theorem summarizerRun_loaded (dirJpgs : List String) (N : Int) :
    (summarizerRun dirJpgs N).loaded = pySliceTo (sortStr dirJpgs) N := by
  unfold summarizerRun
  by_cases hemp : pySliceTo (sortStr dirJpgs) N = [] <;> simp [hemp]

theorem summarizerRun_err_iff (dirJpgs : List String) (N : Int) :
    (summarizerRun dirJpgs N).err = some SummErr.noFrames
      ↔ pySliceTo (sortStr dirJpgs) N = [] := by
  unfold summarizerRun
  by_cases hemp : pySliceTo (sortStr dirJpgs) N = [] <;> simp [hemp]

/-- C4: for every Summarizer run over frame directory contents `dirJpgs` with
nonnegative maximum frame count `N`, the images loaded for the prompt are
exactly the first `min(count, N)` files in ascending filename order (the
sorted permutation of the directory listing), and a directory with zero
matching images makes the run abort with the no-frames error. -/
theorem summarizer_loads_sorted_take (dirJpgs : List String) (N : Int) (hN : 0 ≤ N) :
    (summarizerRun dirJpgs N).loaded = (sortStr dirJpgs).take N.toNat
      ∧ List.Perm (sortStr dirJpgs) dirJpgs
      ∧ List.Sorted strLe (sortStr dirJpgs)
      ∧ (summarizerRun dirJpgs N).loaded.length = min N.toNat dirJpgs.length
      ∧ (dirJpgs = [] → (summarizerRun dirJpgs N).err = some SummErr.noFrames) := by
  have hl := summarizerRun_loaded dirJpgs N
  rw [pySliceTo_of_nonneg _ hN] at hl
  refine ⟨hl, List.perm_insertionSort strLe dirJpgs,
    List.sorted_insertionSort strLe dirJpgs, ?_, ?_⟩
  · rw [hl, List.length_take, sortStr_length]
  · rintro rfl
    exact (summarizerRun_err_iff [] N).mpr (by rw [sortStr, List.insertionSort, pySliceTo_nil])

theorem summarizer_loads_sorted_take_witness :
    (0 : Int) ≤ 1
      ∧ ((summarizerRun [("b.jpg"), ("a.jpg")] 1).loaded
            = (sortStr [("b.jpg"), ("a.jpg")]).take (Int.toNat 1)
        ∧ List.Perm (sortStr [("b.jpg"), ("a.jpg")]) [("b.jpg"), ("a.jpg")]
        ∧ List.Sorted strLe (sortStr [("b.jpg"), ("a.jpg")])
        ∧ (summarizerRun [("b.jpg"), ("a.jpg")] 1).loaded.length
            = min (Int.toNat 1) ([("b.jpg"), ("a.jpg")].length)
        ∧ ([("b.jpg"), ("a.jpg")] = ([] : List String) →
            (summarizerRun [("b.jpg"), ("a.jpg")] 1).err = some SummErr.noFrames)) :=
  ⟨by decide, summarizer_loads_sorted_take [("b.jpg"), ("a.jpg")] 1 (by decide)⟩

/-- C7: every Summarizer run that loads at least one image builds exactly one
user message whose content is the fixed safety prompt text followed by the
loaded images in their loaded (filename-sorted) order, and nothing else. -/
theorem summarizer_single_prompt_message (dirJpgs : List String) (N : Int)
    (h : (summarizerRun dirJpgs N).err = none) :
    (summarizerRun dirJpgs N).loaded ≠ []
      ∧ (summarizerRun dirJpgs N).messages
        = [⟨("user"),
            ContentItem.text SAFETY_PROMPT
              :: (summarizerRun dirJpgs N).loaded.map ContentItem.image⟩] := by
  unfold summarizerRun at *
  by_cases hemp : pySliceTo (sortStr dirJpgs) N = []
  · simp [hemp] at h
  · simp [hemp]

theorem summarizer_single_prompt_message_witness :
    (summarizerRun [("0001.jpg")] 12).err = none
      ∧ ((summarizerRun [("0001.jpg")] 12).loaded ≠ []
        ∧ (summarizerRun [("0001.jpg")] 12).messages
          = [⟨("user"),
              ContentItem.text SAFETY_PROMPT
                :: (summarizerRun [("0001.jpg")] 12).loaded.map ContentItem.image⟩]) :=
  ⟨by decide, summarizer_single_prompt_message [("0001.jpg")] 12 (by decide)⟩

/-- C9 counterexample: with `max_frames = -1 ≤ 0` and a frame directory
holding two images, the Summarizer does not abort: Python's
`sorted(...)[: -1]` keeps the first image, so the claimed unconditional
no-frames error for every `N ≤ 0` is false. -/
theorem summarizer_nonpositive_cap_counterexample :
    (-1 : Int) ≤ 0
      ∧ (summarizerRun [("a.jpg"), ("b.jpg")] (-1)).err = none
      ∧ (summarizerRun [("a.jpg"), ("b.jpg")] (-1)).loaded = [("a.jpg")] := by
  decide

/-- C9 (amended): for every Summarizer run with maximum frame count 0, the
run aborts with the no-frames fatal error even when the frame directory
contains matching images, because the cap is applied to the sorted file list
before the emptiness check. -/
theorem summarizer_zero_cap_always_aborts (dirJpgs : List String) :
    (summarizerRun dirJpgs 0).err = some SummErr.noFrames
      ∧ (summarizerRun dirJpgs 0).loaded = [] := by
  have h0 : pySliceTo (sortStr dirJpgs) 0 = [] := by
    rw [pySliceTo_of_nonneg _ (le_refl 0)]
    simp
  exact ⟨(summarizerRun_err_iff dirJpgs 0).mpr h0, by rw [summarizerRun_loaded, h0]⟩

/-! ### Behavior of the Framer run -/

theorem fmt4_length {i : Nat} (h : i < 10000) : (fmt4 i).data.length = 4 := by
  rw [fmt4_data h]
  rfl

theorem framerRun_ok_eq (initJpgs : List String) (produced : Nat) (N : Int) :
    framerRun true initJpgs true produced N
      = (if sortStr (jpgsAfter initJpgs produced) = []
          then ⟨true, true, jpgsAfter initJpgs produced, some FramerErr.noFrames⟩
          else ⟨true, true, pySliceTo (sortStr (jpgsAfter initJpgs produced)) N, none⟩) := by
  unfold framerRun
  by_cases hemp : sortStr (jpgsAfter initJpgs produced) = [] <;> simp [hemp]

/-- C5: a Framer run whose `--video` path does not exist aborts with the
fatal not-found error before any side effect: the output directory is not
created, no external process is spawned, and no file is written or deleted. -/
theorem framer_missing_video_no_side_effects (initJpgs : List String) (ffmpegOk : Bool)
    (produced : Nat) (maxFrames : Int) :
    framerRun false initJpgs ffmpegOk produced maxFrames
      = ⟨false, false, initJpgs, some FramerErr.videoNotFound⟩ := rfl

/-- C8: the Framer's post-extraction emptiness check and cap operate on every
.jpg file in the output directory, stale pre-existing ones included: the
zero-frames error fires iff the directory holds no .jpg file after the tool
exits (so not when stale images are present, even with zero produced frames),
and the cap keeps min(all .jpg files, N) files, so stale files count toward
the cap. -/
theorem framer_scan_includes_stale (initJpgs : List String) (produced : Nat) (N : Int)
    (hN : 0 ≤ N) :
    ((framerRun true initJpgs true produced N).err = some FramerErr.noFrames
        ↔ (initJpgs = [] ∧ produced = 0))
      ∧ (framerRun true initJpgs true produced N).finalJpgs.length
          = min N.toNat (jpgsAfter initJpgs produced).length := by
  rw [framerRun_ok_eq]
  by_cases hemp : sortStr (jpgsAfter initJpgs produced) = []
  · rw [if_pos hemp]
    have hafter : jpgsAfter initJpgs produced = [] := (sortStr_eq_nil_iff _).mp hemp
    refine ⟨⟨fun _ => (jpgsAfter_eq_nil_iff initJpgs produced).mp hafter, fun _ => rfl⟩, ?_⟩
    rw [hafter]
    simp
  · rw [if_neg hemp]
    refine ⟨⟨fun hco => ?_, fun hco => ?_⟩, ?_⟩
    · simp at hco
    · obtain ⟨rfl, rfl⟩ := hco
      exact absurd (show sortStr (jpgsAfter [] 0) = [] by rw [jpgsAfter_zero]; rfl) hemp
    · show (pySliceTo (sortStr (jpgsAfter initJpgs produced)) N).length = _
      rw [pySliceTo_of_nonneg _ hN, List.length_take, sortStr_length]

theorem framer_scan_includes_stale_witness :
    (0 : Int) ≤ 1
      ∧ (((framerRun true [("old.jpg")] true 2 1).err = some FramerErr.noFrames
          ↔ (([("old.jpg")] : List String) = [] ∧ 2 = 0))
        ∧ (framerRun true [("old.jpg")] true 2 1).finalJpgs.length
            = min (Int.toNat 1) (jpgsAfter [("old.jpg")] 2).length) :=
  ⟨by decide, framer_scan_includes_stale [("old.jpg")] 2 1 (by decide)⟩

/-- C1 counterexample: a Framer run on an existing video with nonnegative
max_frames = 2 whose output directory already holds one stale image and whose
tool run produces 1 frame ends with 2 images in the directory, not
min(produced, N) = 1, so the claim as stated fails. -/
theorem framer_cap_counterexample :
    (framerRun true [("zzz.jpg")] true 1 2).finalJpgs.length ≠ min 1 (Int.toNat 2) := by
  decide

/-- C1 (amended): for every Framer run on an existing video with nonnegative
maximum frame count N, provided the output directory holds no pre-existing
.jpg files and the tool produces at most 9999 frames, the directory ends with
exactly min(produced, N) images, namely the 4-digit zero-padded sequentially
numbered frames in temporal order, and that list is strictly increasing in
filename order, so sorted filename order equals temporal order. -/
theorem framer_kept_frames_ordered (produced : Nat) (N : Int)
    (hN : 0 ≤ N) (hp : produced ≤ 9999) :
    (framerRun true [] true produced N).finalJpgs
        = (List.range (min N.toNat produced)).map (fun k => imgName (k + 1))
      ∧ (framerRun true [] true produced N).finalJpgs.length = min produced N.toNat
      ∧ (framerRun true [] true produced N).finalJpgs.Pairwise
          (fun a b => charsLt a.data b.data = true)
      ∧ ∀ s ∈ (framerRun true [] true produced N).finalJpgs,
          ∃ i, 1 ≤ i ∧ i ≤ produced ∧ s = imgName i ∧ (fmt4 i).data.length = 4 := by
  have hfinal : (framerRun true [] true produced N).finalJpgs
      = (tnames produced).take N.toNat := by
    rw [framerRun_ok_eq]
    by_cases hemp : sortStr (jpgsAfter [] produced) = []
    · rw [if_pos hemp]
      have hafter : jpgsAfter [] produced = [] := (sortStr_eq_nil_iff _).mp hemp
      show jpgsAfter [] produced = _
      rw [hafter]
      rw [jpgsAfter_nil] at hafter
      rw [hafter]
      simp
    · rw [if_neg hemp]
      show pySliceTo (sortStr (jpgsAfter [] produced)) N = _
      rw [jpgsAfter_nil, sortStr_tnames hp, pySliceTo_of_nonneg _ hN]
  refine ⟨?_, ?_, ?_, ?_⟩
  · rw [hfinal, tnames, ← List.map_take, List.take_range]
  · rw [hfinal, List.length_take, tnames, List.length_map, List.length_range, Nat.min_comm]
  · rw [hfinal]
    exact List.Pairwise.sublist (List.take_sublist _ _) (tnames_pairwise_lt hp)
  · rw [hfinal]
    intro s hs
    have hs' : s ∈ tnames produced := List.mem_of_mem_take hs
    rw [tnames] at hs'
    obtain ⟨k, hk, rfl⟩ := List.mem_map.mp hs'
    have hk' : k < produced := List.mem_range.mp hk
    exact ⟨k + 1, by omega, by omega, rfl, fmt4_length (by omega)⟩

theorem framer_kept_frames_ordered_witness :
    (0 : Int) ≤ 2 ∧ (3 : Nat) ≤ 9999
      ∧ ((framerRun true [] true 3 2).finalJpgs
            = (List.range (min (Int.toNat 2) 3)).map (fun k => imgName (k + 1))
        ∧ (framerRun true [] true 3 2).finalJpgs.length = min 3 (Int.toNat 2)
        ∧ (framerRun true [] true 3 2).finalJpgs.Pairwise
            (fun a b => charsLt a.data b.data = true)
        ∧ ∀ s ∈ (framerRun true [] true 3 2).finalJpgs,
            ∃ i, 1 ≤ i ∧ i ≤ 3 ∧ s = imgName i ∧ (fmt4 i).data.length = 4) :=
  ⟨by decide, by decide, framer_kept_frames_ordered 3 2 (by decide) (by decide)⟩
